import Mathlib

/-!
Verification of the offer-sorting logic of the `project_tools` repository.

The embedding follows `src/sorter.py` (class `OfferSorter`) and
`src/routers/offers.py` (`apply_ordering`).  Offer records are Python
dictionaries mapping attribute names to values; the values relevant to the
sorter are numbers (`decimal.Decimal` values, represented by the rationals
they denote; every `Decimal` operation the sorter performs other than
division is exact, and division is modelled with the default context's
rounding by `divDecimal` below), dates (modelled by their ordinal as an
integer) and `None`.  Python operations that can raise — `Decimal(str(v))`
on a non-numeric value, and `<` between values of incompatible types — are
modelled in the `Except` monad, with the error string naming the Python
exception.
-/

namespace RealEstate

/-- An attribute value stored in an offer record: a number (exact decimal,
modelled as `ℚ`), a date (modelled by its ordinal), or Python `None`. -/
inductive Value where
  | num (q : ℚ)
  | date (d : ℤ)
  | null
deriving DecidableEq, Repr

/-- An offer record: a Python dict from attribute names to values,
modelled as an association list where the first binding wins. -/
abbrev Offer := List (String × Value)

/-- Python `offer.get(key)`: the stored value, `None` when the key is absent. -/
def getValue (o : Offer) (k : String) : Value :=
  match o with
  | [] => Value.null
  | (k', v) :: rest => if k' = k then v else getValue rest k

/-- The closed enumeration `SortField` from `sorter.py`. -/
inductive SortField where
  | price
  | pricePerSqm
  | dateAdded
  | area
deriving DecidableEq, Repr

/-- Model of `SortField(sort_by)`: parse a string into a sort field; unknown strings
raise `ValueError` in Python, modelled as `none`. -/
def parseSortField (s : String) : Option SortField :=
  if s = "price" then some SortField.price
  else if s = "price_per_sqm" then some SortField.pricePerSqm
  else if s = "date_added" then some SortField.dateAdded
  else if s = "area" then some SortField.area
  else Option.none

/-- The string value of each `SortField` enum member. -/
def fieldName : SortField → String
  | SortField.price => "price"
  | SortField.pricePerSqm => "price_per_sqm"
  | SortField.dateAdded => "date_added"
  | SortField.area => "area"

/-- A sort key produced by `OfferSorter._build_sort_key`: a `Decimal`
(for `price` / `price_per_sqm`), or the raw stored value (for `date_added` /
`area`), which may be a date, a number, or `None`. -/
inductive Key where
  | num (q : ℚ)
  | date (d : ℤ)
  | null
deriving DecidableEq, Repr

/-- Python `<` on sort keys, as invoked by `sorted`: numbers compare with
numbers and dates with dates; any comparison involving `None`, or mixing a
date with a number, raises `TypeError`. -/
def ltKey : Key → Key → Except String Bool
  | Key.num a, Key.num b => Except.ok (decide (a < b))
  | Key.date a, Key.date b => Except.ok (decide (a < b))
  | _, _ => Except.error "TypeError"

/-- Model of `OfferSorter._normalize_price_value`: a `Decimal` or numeric value is
kept (exactly), `None` becomes `0`, and `Decimal(str(v))` on a non-numeric
value such as a date raises `InvalidOperation`. -/
def normalizePriceValue : Value → Except String ℚ
  | Value.num q => Except.ok q
  | Value.null => Except.ok 0
  | Value.date _ => Except.error "InvalidOperation"

/-- Decimal digit count of a natural number, by repeated division by ten.
The first argument is fuel; every use passes `fuel = n`, which suffices
because the recursion depth is the digit count. -/
def digitCount : ℕ → ℕ → ℕ
  | 0, _ => 1
  | fuel + 1, n => if n < 10 then 1 else digitCount fuel (n / 10) + 1

/-- The number of decimal digits of `n` (one digit for `0`). -/
def digits10 (n : ℕ) : ℕ := digitCount n n

/-- Ten raised to an integer power, as a rational. -/
def pow10 (e : ℤ) : ℚ :=
  if 0 ≤ e then ((10 ^ e.toNat : ℕ) : ℚ) else 1 / ((10 ^ (-e).toNat : ℕ) : ℚ)

/-- Whether `10 ^ e ≤ n / d`, for positive naturals `n`, `d`, decided by
cross-multiplication. -/
def decNumLE (e : ℤ) (n d : ℕ) : Bool :=
  if 0 ≤ e then 10 ^ e.toNat * d ≤ n else d ≤ n * 10 ^ (-e).toNat

/-- Round the fraction `n / d` (with `d > 0`) to the nearest natural number,
ties to even — the coefficient rounding of `ROUND_HALF_EVEN`. -/
def roundHalfEvenNat (n d : ℕ) : ℕ :=
  let f := n / d
  let r := n % d
  if 2 * r < d then f
  else if d < 2 * r then f + 1
  else if f % 2 = 0 then f else f + 1

/-- Coefficient and exponent of the `Decimal` quotient of the positive
fraction `n / d` under the default context: the adjusted exponent `e` (the
unique exponent with `10 ^ e ≤ n / d < 10 ^ (e + 1)`; the digit counts of
`n` and `d` bracket it within one, and one comparison settles it) determines
the scale `s = e - 27` of the least significant retained digit, and the
coefficient is `n / d / 10 ^ s` rounded half-even — so the value `c * 10 ^ s`
is the exact quotient correctly rounded to 28 significant digits. -/
def divCoeffExp (n d : ℕ) : ℕ × ℤ :=
  let e0 : ℤ := (digits10 n : ℤ) - (digits10 d : ℤ)
  let e : ℤ := if decNumLE e0 n d then e0 else e0 - 1
  let s : ℤ := e - 27
  let c : ℕ :=
    if 0 ≤ s then roundHalfEvenNat n (d * 10 ^ s.toNat)
    else roundHalfEvenNat (n * 10 ^ (-s).toNat) d
  (c, s)

/-- Model of division of two Python `Decimal`s under the default context
(`prec = 28`, `ROUND_HALF_EVEN`): the exact quotient `p / a`, written as the
signed fraction `±(p.num * a.den) / (p.den * a.num)`, correctly rounded to
28 significant digits; the sign is reapplied after rounding the magnitude,
as `Decimal` rounds the coefficient. A quotient expressible within the
precision (such as `500000 / 50`) is returned exactly; one like `1 / 3` is
rounded, so the result is in general not the exact rational quotient. -/
def divDecimal (p a : ℚ) : ℚ :=
  if p.num = 0 ∨ a.num = 0 then 0
  else
    let ce := divCoeffExp (p.num * (a.den : ℤ)).natAbs ((p.den : ℤ) * a.num).natAbs
    let mag : ℚ := (ce.1 : ℚ) * pow10 ce.2
    if (p.num < 0) = (a.num < 0) then mag else -mag

/-- Model of `OfferSorter._calculate_price_per_sqm`: use the stored `price_per_sqm`
when it is not `None`; otherwise derive it from `price` and `area` by
`Decimal` division, defaulting to `0` when either is missing or the area is
zero. -/
def calculatePricePerSqm (o : Offer) : Except String ℚ :=
  let direct := getValue o "price_per_sqm"
  if direct ≠ Value.null then normalizePriceValue direct
  else
    let totalPrice := getValue o "price"
    let area := getValue o "area"
    if totalPrice = Value.null ∨ area = Value.null then Except.ok 0
    else
      match normalizePriceValue totalPrice with
      | Except.error e => Except.error e
      | Except.ok priceDec =>
        match area with
        | Value.num a =>
          if a = 0 then Except.ok 0 else Except.ok (divDecimal priceDec a)
        | Value.date _ => Except.error "InvalidOperation"
        | Value.null => Except.ok 0

/-- The raw stored value used directly as a sort key (for `date_added` and
`area`). -/
def valueToKey : Value → Key
  | Value.num q => Key.num q
  | Value.date d => Key.date d
  | Value.null => Key.null

/-- Model of `OfferSorter._build_sort_key`: the comparable key for one offer under the
chosen sort field. -/
def buildSortKey (o : Offer) : SortField → Except String Key
  | SortField.price => (normalizePriceValue (getValue o "price")).map Key.num
  | SortField.pricePerSqm => (calculatePricePerSqm o).map Key.num
  | SortField.dateAdded => Except.ok (valueToKey (getValue o "date_added"))
  | SortField.area => Except.ok (valueToKey (getValue o "area"))

/-- The comparison used by `sorted(..., key=..., reverse=direction == "desc")`
on decorated (key, record) pairs: the key order, flipped when the direction
string is exactly `"desc"`. -/
def cmpKeyed (direction : String) (a b : Key × Offer) : Except String Bool :=
  if direction = "desc" then ltKey b.1 a.1 else ltKey a.1 b.1

/-- Insert an element into an already-sorted list, placing it after every
element strictly below it; comparisons may raise. -/
def insertE {α : Type} (lt : α → α → Except String Bool) (x : α) :
    List α → Except String (List α)
  | [] => Except.ok [x]
  | y :: ys =>
    match lt y x with
    | Except.error e => Except.error e
    | Except.ok true =>
      match insertE lt x ys with
      | Except.error e => Except.error e
      | Except.ok m => Except.ok (y :: m)
    | Except.ok false => Except.ok (x :: y :: ys)

/-- A stable sort with a fallible comparison, modelling Python's stable
`sorted`: on totally comparable keys it computes the unique stable order,
and a comparison between incomparable keys propagates the raised error. -/
def sortE {α : Type} (lt : α → α → Except String Bool) :
    List α → Except String (List α)
  | [] => Except.ok []
  | x :: xs =>
    match sortE lt xs with
    | Except.error e => Except.error e
    | Except.ok s => insertE lt x s

/-- CPython's `sorted(..., key=f)` first computes the key of every element,
left to right (propagating the first raised error), decorating the list. -/
def buildKeys (f : SortField) : List Offer → Except String (List (Key × Offer))
  | [] => Except.ok []
  | o :: os =>
    match buildSortKey o f with
    | Except.error e => Except.error e
    | Except.ok k =>
      match buildKeys f os with
      | Except.error e => Except.error e
      | Except.ok rest => Except.ok ((k, o) :: rest)

/-- Model of `OfferSorter.sort_offers`: empty input yields `[]`; a falsy or
unrecognized `sort_by` returns the records unchanged; otherwise the records
are stably sorted by the derived key, descending exactly when `direction`
is the string `"desc"`. -/
def sortOffers (offers : List Offer) (sortBy : Option String)
    (direction : String) : Except String (List Offer) :=
  if offers = [] then Except.ok []
  else
    match sortBy with
    | Option.none => Except.ok offers
    | some s =>
      if s = "" then Except.ok offers
      else
        match parseSortField s with
        | Option.none => Except.ok offers
        | some f =>
          match buildKeys f offers with
          | Except.error e => Except.error e
          | Except.ok keyed =>
            match sortE (cmpKeyed direction) keyed with
            | Except.error e => Except.error e
            | Except.ok sortedKeyed => Except.ok (sortedKeyed.map Prod.snd)

/-- Query statements at the HTTP boundary, abstracted to the list of
`ORDER BY` clauses appended so far (`src/routers/offers.py`). -/
inductive OrderClause where
  | ascOn (col : String)
  | descOn (col : String)
deriving DecidableEq, Repr

/-- A SQLAlchemy `Select`, abstracted to its accumulated ordering. -/
structure Stmt where
  orderBy : List OrderClause
deriving DecidableEq, Repr

/-- The whitelist of sortable fields wired at the HTTP boundary:
only `price`, mapped to the `price_total_zl` column. -/
def sortableFields : List (String × String) := [("price", "price_total_zl")]

/-- Model of `apply_ordering` from `src/routers/offers.py`: a falsy `sort_by` or one
outside the whitelist leaves the statement unchanged; otherwise an
`ORDER BY` is appended, ascending only for (case-insensitive) `"asc"`. -/
def applyOrdering (stmt : Stmt) (sortBy : Option String)
    (order : Option String) : Stmt :=
  match sortBy with
  | Option.none => stmt
  | some s =>
    if s = "" then stmt
    else
      match sortableFields.lookup s with
      | Option.none => stmt
      | some col =>
        let sortOrder := (match order with
          | Option.none => "desc"
          | some o => if o = "" then "desc" else o).toLower
        if sortOrder = "asc" then { orderBy := stmt.orderBy ++ [OrderClause.ascOn col] }
        else { orderBy := stmt.orderBy ++ [OrderClause.descOn col] }

/-- Decidable equality of fallible results, needed to evaluate the model on
concrete inputs. -/
instance {ε α : Type} [DecidableEq ε] [DecidableEq α] : DecidableEq (Except ε α) :=
  fun a b =>
    match a, b with
    | Except.error x, Except.error y =>
      if h : x = y then Decidable.isTrue (by rw [h]) else Decidable.isFalse (by simp [h])
    | Except.ok x, Except.ok y =>
      if h : x = y then Decidable.isTrue (by rw [h]) else Decidable.isFalse (by simp [h])
    | Except.error _, Except.ok _ => Decidable.isFalse (by simp)
    | Except.ok _, Except.error _ => Decidable.isFalse (by simp)

/-! ### Basic facts about the key comparison -/

/-- The key comparison is asymmetric wherever it succeeds positively. -/
theorem ltKey_asymm {a b : Key} (h : ltKey a b = Except.ok true) :
    ltKey b a = Except.ok false := by
  cases a <;> cases b <;> simp [ltKey] at h ⊢ <;> exact le_of_lt h

/-- Two successful negative comparisons compose: the key order is negatively
transitive on comparable keys. -/
theorem ltKey_negTrans {a b c : Key} (hab : ltKey a b = Except.ok false)
    (hbc : ltKey b c = Except.ok false) : ltKey a c = Except.ok false := by
  cases a <;> cases b <;> cases c <;> simp [ltKey] at hab hbc ⊢ <;>
    exact le_trans hbc hab

/-- No key is strictly below itself. -/
theorem ltKey_irrefl (k : Key) : ltKey k k ≠ Except.ok true := by
  cases k <;> simp [ltKey]

/-- The decorated comparison is asymmetric in both directions. -/
theorem cmpKeyed_asymm {d : String} {a b : Key × Offer}
    (h : cmpKeyed d a b = Except.ok true) : cmpKeyed d b a = Except.ok false := by
  by_cases hd : d = "desc" <;> simp [cmpKeyed, hd] at h ⊢ <;> exact ltKey_asymm h

/-- The decorated comparison is negatively transitive in both directions. -/
theorem cmpKeyed_negTrans {d : String} {a b c : Key × Offer}
    (hab : cmpKeyed d a b = Except.ok false) (hbc : cmpKeyed d b c = Except.ok false) :
    cmpKeyed d a c = Except.ok false := by
  by_cases hd : d = "desc" <;> simp [cmpKeyed, hd] at hab hbc ⊢
  · exact ltKey_negTrans hbc hab
  · exact ltKey_negTrans hab hbc

/-- A successful positive comparison separates the two keys. -/
theorem cmpKeyed_fst_ne {d : String} {a b : Key × Offer}
    (h : cmpKeyed d a b = Except.ok true) : a.1 ≠ b.1 := by
  intro he
  by_cases hd : d = "desc" <;> simp [cmpKeyed, hd, he] at h <;> exact ltKey_irrefl _ h

/-! ### Permutation and order facts about the fallible stable sort -/

/-- A successful insertion permutes the inserted element into the list. -/
theorem insertE_perm {α : Type} (lt : α → α → Except String Bool) (x : α) :
    ∀ (l m : List α), insertE lt x l = Except.ok m → m.Perm (x :: l)
  | [], m, h => by
    simp [insertE] at h
    subst h
    exact List.Perm.refl _
  | y :: ys, m, h => by
    cases hltyx : lt y x with
    | error e => simp [insertE, hltyx] at h
    | ok b =>
      cases b with
      | false =>
        simp [insertE, hltyx] at h
        subst h
        exact List.Perm.refl _
      | true =>
        cases hrec : insertE lt x ys with
        | error e => simp [insertE, hltyx, hrec] at h
        | ok m' =>
          simp [insertE, hltyx, hrec] at h
          subst h
          exact ((insertE_perm lt x ys m' hrec).cons y).trans (List.Perm.swap x y ys)

/-- A successful sort permutes its input. -/
theorem sortE_perm {α : Type} (lt : α → α → Except String Bool) :
    ∀ (l m : List α), sortE lt l = Except.ok m → m.Perm l
  | [], m, h => by
    simp [sortE] at h
    subst h
    exact List.Perm.refl _
  | x :: xs, m, h => by
    cases hs : sortE lt xs with
    | error e => simp [sortE, hs] at h
    | ok s =>
      simp [sortE, hs] at h
      exact (insertE_perm lt x s m h).trans ((sortE_perm lt xs s hs).cons x)

/-- Inserting into a list that is pairwise not-above keeps it so: every later
element fails to sit strictly below every earlier one. -/
theorem insertE_pairwise {α : Type} (lt : α → α → Except String Bool)
    (hasymm : ∀ a b, lt a b = Except.ok true → lt b a = Except.ok false)
    (hneg : ∀ a b c, lt a b = Except.ok false → lt b c = Except.ok false →
      lt a c = Except.ok false)
    (x : α) :
    ∀ (l m : List α), l.Pairwise (fun a b => lt b a = Except.ok false) →
      insertE lt x l = Except.ok m →
      m.Pairwise (fun a b => lt b a = Except.ok false)
  | [], m, _, h => by
    simp [insertE] at h
    subst h
    exact List.pairwise_singleton _ _
  | y :: ys, m, hp, h => by
    rcases List.pairwise_cons.mp hp with ⟨hy, hys⟩
    cases hltyx : lt y x with
    | error e => simp [insertE, hltyx] at h
    | ok b =>
      cases b with
      | false =>
        simp [insertE, hltyx] at h
        subst h
        refine List.pairwise_cons.mpr ⟨?_, hp⟩
        intro z hz
        rcases List.mem_cons.mp hz with rfl | hz'
        · exact hltyx
        · exact hneg z y x (hy z hz') hltyx
      | true =>
        cases hrec : insertE lt x ys with
        | error e => simp [insertE, hltyx, hrec] at h
        | ok m' =>
          simp [insertE, hltyx, hrec] at h
          subst h
          refine List.pairwise_cons.mpr
            ⟨?_, insertE_pairwise lt hasymm hneg x ys m' hys hrec⟩
          intro z hz
          rcases List.mem_cons.mp ((insertE_perm lt x ys m' hrec).subset hz) with rfl | hz'
          · exact hasymm _ _ hltyx
          · exact hy z hz'

/-- A successful sort is ordered: no later element sits strictly below an
earlier one (so in particular every compared pair succeeded). -/
theorem sortE_pairwise {α : Type} (lt : α → α → Except String Bool)
    (hasymm : ∀ a b, lt a b = Except.ok true → lt b a = Except.ok false)
    (hneg : ∀ a b c, lt a b = Except.ok false → lt b c = Except.ok false →
      lt a c = Except.ok false) :
    ∀ (l m : List α), sortE lt l = Except.ok m →
      m.Pairwise (fun a b => lt b a = Except.ok false)
  | [], m, h => by
    simp [sortE] at h
    subst h
    exact List.Pairwise.nil
  | x :: xs, m, h => by
    cases hs : sortE lt xs with
    | error e => simp [sortE, hs] at h
    | ok s =>
      simp [sortE, hs] at h
      exact insertE_pairwise lt hasymm hneg x s m
        (sortE_pairwise lt hasymm hneg xs s hs) h

/-! ### Stability: the sort preserves the subsequence of each key value -/

/-- Inserting an element whose key is `k` puts it in front of every element
with key `k` already present (all elements it moved past have a strictly
smaller key, hence a different one). -/
theorem insertE_filter_pos {d : String} {x : Key × Offer} {k : Key} (hx : x.1 = k) :
    ∀ (l m : List (Key × Offer)), insertE (cmpKeyed d) x l = Except.ok m →
      m.filter (fun p => decide (p.1 = k))
        = x :: l.filter (fun p => decide (p.1 = k))
  | [], m, h => by
    simp [insertE] at h
    subst h
    simp [hx]
  | y :: ys, m, h => by
    cases hltyx : cmpKeyed d y x with
    | error e => simp [insertE, hltyx] at h
    | ok b =>
      cases b with
      | false =>
        simp [insertE, hltyx] at h
        subst h
        simp [List.filter_cons, hx]
      | true =>
        cases hrec : insertE (cmpKeyed d) x ys with
        | error e => simp [insertE, hltyx, hrec] at h
        | ok m' =>
          simp [insertE, hltyx, hrec] at h
          subst h
          have hyk : y.1 ≠ k := hx ▸ cmpKeyed_fst_ne hltyx
          simp [List.filter_cons, hyk, insertE_filter_pos hx ys m' hrec]

/-- Inserting an element whose key is not `k` leaves the `k`-subsequence
unchanged. -/
theorem insertE_filter_neg {d : String} {x : Key × Offer} {k : Key} (hx : x.1 ≠ k) :
    ∀ (l m : List (Key × Offer)), insertE (cmpKeyed d) x l = Except.ok m →
      m.filter (fun p => decide (p.1 = k)) = l.filter (fun p => decide (p.1 = k))
  | [], m, h => by
    simp [insertE] at h
    subst h
    simp [hx]
  | y :: ys, m, h => by
    cases hltyx : cmpKeyed d y x with
    | error e => simp [insertE, hltyx] at h
    | ok b =>
      cases b with
      | false =>
        simp [insertE, hltyx] at h
        subst h
        simp [List.filter_cons, hx]
      | true =>
        cases hrec : insertE (cmpKeyed d) x ys with
        | error e => simp [insertE, hltyx, hrec] at h
        | ok m' =>
          simp [insertE, hltyx, hrec] at h
          subst h
          simp [List.filter_cons, insertE_filter_neg hx ys m' hrec]

/-- A successful sort is stable: for every key value `k`, the subsequence of
decorated records carrying key `k` is exactly the one of the input. -/
theorem sortE_filter (d : String) (k : Key) :
    ∀ (l m : List (Key × Offer)), sortE (cmpKeyed d) l = Except.ok m →
      m.filter (fun p => decide (p.1 = k)) = l.filter (fun p => decide (p.1 = k))
  | [], m, h => by
    simp [sortE] at h
    subst h
    rfl
  | x :: xs, m, h => by
    cases hs : sortE (cmpKeyed d) xs with
    | error e => simp [sortE, hs] at h
    | ok s =>
      simp [sortE, hs] at h
      by_cases hx : x.1 = k
      · rw [insertE_filter_pos hx s m h, sortE_filter d k xs s hs]
        simp [List.filter_cons, hx]
      · rw [insertE_filter_neg hx s m h, sortE_filter d k xs s hs]
        simp [List.filter_cons, hx]

/-! ### Facts about the decoration pass -/

/-- The decoration pass keeps the records, in order. -/
theorem buildKeys_map_snd (f : SortField) :
    ∀ (l : List Offer) (keyed : List (Key × Offer)),
      buildKeys f l = Except.ok keyed → keyed.map Prod.snd = l
  | [], keyed, h => by
    simp [buildKeys] at h
    subst h
    rfl
  | o :: os, keyed, h => by
    cases hk : buildSortKey o f with
    | error e => simp [buildKeys, hk] at h
    | ok k =>
      cases hr : buildKeys f os with
      | error e => simp [buildKeys, hk, hr] at h
      | ok rest =>
        simp [buildKeys, hk, hr] at h
        subst h
        simp [buildKeys_map_snd f os rest hr]

/-- Every decorated pair carries the key actually derived from its record. -/
theorem buildKeys_mem (f : SortField) :
    ∀ (l : List Offer) (keyed : List (Key × Offer)),
      buildKeys f l = Except.ok keyed →
      ∀ p ∈ keyed, buildSortKey p.2 f = Except.ok p.1
  | [], keyed, h => by
    simp [buildKeys] at h
    subst h
    simp
  | o :: os, keyed, h => by
    cases hk : buildSortKey o f with
    | error e => simp [buildKeys, hk] at h
    | ok k =>
      cases hr : buildKeys f os with
      | error e => simp [buildKeys, hk, hr] at h
      | ok rest =>
        simp [buildKeys, hk, hr] at h
        subst h
        intro p hp
        rcases List.mem_cons.mp hp with rfl | hp'
        · exact hk
        · exact buildKeys_mem f os rest hr p hp'

/-- Filtering decorated pairs by key and projecting to records is the same as
projecting first and filtering records by their derived key. -/
theorem filter_map_snd (f : SortField) (k : Key) :
    ∀ (keyed : List (Key × Offer)),
      (∀ p ∈ keyed, buildSortKey p.2 f = Except.ok p.1) →
      (keyed.filter (fun p => decide (p.1 = k))).map Prod.snd
        = (keyed.map Prod.snd).filter
            (fun o => decide (buildSortKey o f = Except.ok k))
  | [], _ => rfl
  | p :: ps, h => by
    have hp := h p (List.mem_cons_self p ps)
    have hrest := filter_map_snd f k ps (fun q hq => h q (List.mem_cons_of_mem p hq))
    by_cases hk : p.1 = k
    · simp [List.filter_cons, hp, hk, hrest]
    · simp [List.filter_cons, hp, hk, hrest]

/-! ### Unfolding the sorter -/

/-- Each enum member parses back from its string value. -/
theorem parseSortField_fieldName (f : SortField) : parseSortField (fieldName f) = some f := by
  cases f <;> decide

/-- No enum member has an empty string value. -/
theorem fieldName_ne_empty (f : SortField) : fieldName f ≠ "" := by
  cases f <;> decide

/-- Inversion of a successful sort with a recognized field on a nonempty
input: it decorates, sorts, and projects. -/
theorem sortOffers_ok_inv {offers : List Offer} {s d : String} {l : List Offer}
    {f : SortField} (h0 : offers ≠ []) (hs : s ≠ "") (hp : parseSortField s = some f)
    (h : sortOffers offers (some s) d = Except.ok l) :
    ∃ keyed sorted, buildKeys f offers = Except.ok keyed ∧
      sortE (cmpKeyed d) keyed = Except.ok sorted ∧ l = sorted.map Prod.snd := by
  cases hbk : buildKeys f offers with
  | error e => simp [sortOffers, h0, hs, hp, hbk] at h
  | ok keyed =>
    cases hsort : sortE (cmpKeyed d) keyed with
    | error e => simp [sortOffers, h0, hs, hp, hbk, hsort] at h
    | ok sorted =>
      simp [sortOffers, h0, hs, hp, hbk, hsort] at h
      exact ⟨keyed, sorted, rfl, hsort, h.symm⟩

/-- Any successful call returns a permutation of its input. -/
theorem sortOffers_perm (offers : List Offer) (sb : Option String) (d : String)
    (l : List Offer) (h : sortOffers offers sb d = Except.ok l) : l.Perm offers := by
  by_cases h0 : offers = []
  · subst h0
    simp [sortOffers] at h
    subst h
    exact List.Perm.refl _
  · cases sb with
    | none =>
      simp [sortOffers, h0] at h
      subst h
      exact List.Perm.refl _
    | some s =>
      by_cases hs : s = ""
      · simp [sortOffers, h0, hs] at h
        subst h
        exact List.Perm.refl _
      · cases hp : parseSortField s with
        | none =>
          simp [sortOffers, h0, hs, hp] at h
          subst h
          exact List.Perm.refl _
        | some f =>
          obtain ⟨keyed, sorted, hbk, hsort, hl⟩ := sortOffers_ok_inv h0 hs hp h
          subst hl
          have hperm := (sortE_perm (cmpKeyed d) keyed sorted hsort).map Prod.snd
          rwa [buildKeys_map_snd f offers keyed hbk] at hperm

/-- A `sort_by` that is null, empty, or unrecognized returns the input
unchanged. -/
theorem sortOffers_unsupported (offers : List Offer) (d : String)
    (sb : Option String)
    (h : ∀ s, sb = some s →
      s ∉ (["price", "price_per_sqm", "date_added", "area"] : List String)) :
    sortOffers offers sb d = Except.ok offers := by
  by_cases h0 : offers = []
  · subst h0
    cases sb <;> simp [sortOffers]
  · cases sb with
    | none => simp [sortOffers, h0]
    | some s =>
      have hmem := h s rfl
      simp at hmem
      obtain ⟨h1, h2, h3, h4⟩ := hmem
      by_cases hs : s = ""
      · simp [sortOffers, h0, hs]
      · have hp : parseSortField s = Option.none := by
          simp [parseSortField, h1, h2, h3, h4]
        simp [sortOffers, h0, hs, hp]

/-- Stability of the full sorter: for every key value, the subsequence of
records deriving that key is unchanged by sorting. -/
theorem sortOffers_stable (offers : List Offer) (f : SortField) (d : String)
    (l : List Offer) (h : sortOffers offers (some (fieldName f)) d = Except.ok l)
    (k : Key) :
    l.filter (fun o => decide (buildSortKey o f = Except.ok k))
      = offers.filter (fun o => decide (buildSortKey o f = Except.ok k)) := by
  by_cases h0 : offers = []
  · subst h0
    simp [sortOffers] at h
    subst h
    rfl
  · obtain ⟨keyed, sorted, hbk, hsort, hl⟩ :=
      sortOffers_ok_inv h0 (fieldName_ne_empty f) (parseSortField_fieldName f) h
    subst hl
    have hmemk : ∀ p ∈ keyed, buildSortKey p.2 f = Except.ok p.1 :=
      buildKeys_mem f offers keyed hbk
    have hmems : ∀ p ∈ sorted, buildSortKey p.2 f = Except.ok p.1 :=
      fun p hp => hmemk p ((sortE_perm (cmpKeyed d) keyed sorted hsort).subset hp)
    calc (sorted.map Prod.snd).filter (fun o => decide (buildSortKey o f = Except.ok k))
        = (sorted.filter (fun p => decide (p.1 = k))).map Prod.snd :=
          (filter_map_snd f k sorted hmems).symm
      _ = (keyed.filter (fun p => decide (p.1 = k))).map Prod.snd := by
          rw [sortE_filter d k keyed sorted hsort]
      _ = (keyed.map Prod.snd).filter (fun o => decide (buildSortKey o f = Except.ok k)) :=
          filter_map_snd f k keyed hmemk
      _ = offers.filter (fun o => decide (buildSortKey o f = Except.ok k)) := by
          rw [buildKeys_map_snd f offers keyed hbk]

/-- The key derived for the `price` field is the normalized price. -/
theorem buildSortKey_price_inv {o : Offer} {k : Key}
    (h : buildSortKey o SortField.price = Except.ok k) :
    ∃ q, k = Key.num q ∧ normalizePriceValue (getValue o "price") = Except.ok q := by
  cases hn : normalizePriceValue (getValue o "price") with
  | error e => simp [buildSortKey, hn, Except.map] at h
  | ok q =>
    simp [buildSortKey, hn, Except.map] at h
    exact ⟨q, h.symm, rfl⟩

/-- Sorting by `price` ascending yields non-decreasing normalized prices. -/
theorem sortOffers_price_asc (offers : List Offer) (l : List Offer)
    (h : sortOffers offers (some "price") "asc" = Except.ok l) :
    l.Pairwise (fun a b => ∀ qa qb,
      normalizePriceValue (getValue a "price") = Except.ok qa →
      normalizePriceValue (getValue b "price") = Except.ok qb → qa ≤ qb) := by
  by_cases h0 : offers = []
  · subst h0
    simp [sortOffers] at h
    subst h
    exact List.Pairwise.nil
  · obtain ⟨keyed, sorted, hbk, hsort, hl⟩ :=
      sortOffers_ok_inv h0 (fieldName_ne_empty SortField.price)
        (parseSortField_fieldName SortField.price) h
    subst hl
    have hmems : ∀ p ∈ sorted, buildSortKey p.2 SortField.price = Except.ok p.1 :=
      fun p hp => buildKeys_mem SortField.price offers keyed hbk p
        ((sortE_perm (cmpKeyed "asc") keyed sorted hsort).subset hp)
    have hpw := sortE_pairwise (cmpKeyed "asc")
      (fun a b => cmpKeyed_asymm) (fun a b c => cmpKeyed_negTrans) keyed sorted hsort
    rw [List.pairwise_map]
    refine hpw.imp_of_mem ?_
    intro p q hp hq hqp
    obtain ⟨qp, hkp, hnp⟩ := buildSortKey_price_inv (hmems p hp)
    obtain ⟨qq, hkq, hnq⟩ := buildSortKey_price_inv (hmems q hq)
    intro qa qb ha hb
    rw [hnp] at ha
    rw [hnq] at hb
    cases ha
    cases hb
    have : ltKey q.1 p.1 = Except.ok false := by
      simpa [cmpKeyed] using hqp
    rw [hkp, hkq] at this
    simp [ltKey] at this
    exact this

/-- Sorting by `price` descending yields non-increasing normalized prices. -/
theorem sortOffers_price_desc (offers : List Offer) (l : List Offer)
    (h : sortOffers offers (some "price") "desc" = Except.ok l) :
    l.Pairwise (fun a b => ∀ qa qb,
      normalizePriceValue (getValue a "price") = Except.ok qa →
      normalizePriceValue (getValue b "price") = Except.ok qb → qb ≤ qa) := by
  by_cases h0 : offers = []
  · subst h0
    simp [sortOffers] at h
    subst h
    exact List.Pairwise.nil
  · obtain ⟨keyed, sorted, hbk, hsort, hl⟩ :=
      sortOffers_ok_inv h0 (fieldName_ne_empty SortField.price)
        (parseSortField_fieldName SortField.price) h
    subst hl
    have hmems : ∀ p ∈ sorted, buildSortKey p.2 SortField.price = Except.ok p.1 :=
      fun p hp => buildKeys_mem SortField.price offers keyed hbk p
        ((sortE_perm (cmpKeyed "desc") keyed sorted hsort).subset hp)
    have hpw := sortE_pairwise (cmpKeyed "desc")
      (fun a b => cmpKeyed_asymm) (fun a b c => cmpKeyed_negTrans) keyed sorted hsort
    rw [List.pairwise_map]
    refine hpw.imp_of_mem ?_
    intro p q hp hq hqp
    obtain ⟨qp, hkp, hnp⟩ := buildSortKey_price_inv (hmems p hp)
    obtain ⟨qq, hkq, hnq⟩ := buildSortKey_price_inv (hmems q hq)
    intro qa qb ha hb
    rw [hnp] at ha
    rw [hnq] at hb
    cases ha
    cases hb
    have : ltKey p.1 q.1 = Except.ok false := by
      simpa [cmpKeyed] using hqp
    rw [hkp, hkq] at this
    simp [ltKey] at this
    exact this

/-! ### Success of the sorter on numeric data -/

/-- A value that is a number or `None` (not a date or other object). -/
def isNumOrNull : Value → Bool
  | Value.date _ => false
  | _ => true

/-- Price normalization succeeds on numbers and `None`. -/
theorem normalizePriceValue_ok {v : Value} (h : isNumOrNull v = true) :
    ∃ q, normalizePriceValue v = Except.ok q := by
  cases v with
  | num q => exact ⟨q, rfl⟩
  | date d => simp [isNumOrNull] at h
  | null => exact ⟨0, rfl⟩

/-- Price-per-area derivation succeeds when the three fields involved are all
numbers or `None`. -/
theorem calculatePricePerSqm_ok {o : Offer}
    (hpps : isNumOrNull (getValue o "price_per_sqm") = true)
    (hp : isNumOrNull (getValue o "price") = true)
    (ha : isNumOrNull (getValue o "area") = true) :
    ∃ q, calculatePricePerSqm o = Except.ok q := by
  cases hd : getValue o "price_per_sqm" with
  | num q => exact ⟨q, by simp [calculatePricePerSqm, hd, normalizePriceValue]⟩
  | date d => rw [hd] at hpps; simp [isNumOrNull] at hpps
  | null =>
    by_cases hnull : getValue o "price" = Value.null ∨ getValue o "area" = Value.null
    · exact ⟨0, by simp [calculatePricePerSqm, hd, hnull]⟩
    · push_neg at hnull
      obtain ⟨hpn, han⟩ := hnull
      cases hpv : getValue o "price" with
      | date dp => rw [hpv] at hp; simp [isNumOrNull] at hp
      | null => exact absurd hpv hpn
      | num p =>
        cases hav : getValue o "area" with
        | date da => rw [hav] at ha; simp [isNumOrNull] at ha
        | null => exact absurd hav han
        | num a =>
          by_cases haz : a = 0
          · exact ⟨0, by simp [calculatePricePerSqm, hd, hpv, hav, haz,
              normalizePriceValue]⟩
          · exact ⟨divDecimal p a, by simp [calculatePricePerSqm, hd, hpv, hav,
              haz, normalizePriceValue]⟩

/-- Under `price`, a numeric-or-null price field yields a numeric key. -/
theorem buildSortKey_price_ok {o : Offer}
    (hp : isNumOrNull (getValue o "price") = true) :
    ∃ q, buildSortKey o SortField.price = Except.ok (Key.num q) := by
  obtain ⟨q, hq⟩ := normalizePriceValue_ok hp
  exact ⟨q, by simp [buildSortKey, hq, Except.map]⟩

/-- Under `price_per_sqm`, numeric-or-null fields yield a numeric key. -/
theorem buildSortKey_pps_ok {o : Offer}
    (hpps : isNumOrNull (getValue o "price_per_sqm") = true)
    (hp : isNumOrNull (getValue o "price") = true)
    (ha : isNumOrNull (getValue o "area") = true) :
    ∃ q, buildSortKey o SortField.pricePerSqm = Except.ok (Key.num q) := by
  obtain ⟨q, hq⟩ := calculatePricePerSqm_ok hpps hp ha
  exact ⟨q, by simp [buildSortKey, hq, Except.map]⟩

/-- Decoration succeeds, with numeric keys, when every record's key derivation
succeeds with a numeric key. -/
theorem buildKeys_ok (f : SortField) :
    ∀ (l : List Offer),
      (∀ o ∈ l, ∃ q, buildSortKey o f = Except.ok (Key.num q)) →
      ∃ keyed, buildKeys f l = Except.ok keyed ∧
        ∀ p ∈ keyed, ∃ q, p.1 = Key.num q
  | [], _ => ⟨[], rfl, by simp⟩
  | o :: os, h => by
    obtain ⟨q, hq⟩ := h o (List.mem_cons_self o os)
    obtain ⟨keyed, hk, hnum⟩ :=
      buildKeys_ok f os (fun o' ho' => h o' (List.mem_cons_of_mem o ho'))
    refine ⟨(Key.num q, o) :: keyed, by simp [buildKeys, hq, hk], ?_⟩
    intro p hp
    rcases List.mem_cons.mp hp with rfl | hp'
    · exact ⟨q, rfl⟩
    · exact hnum p hp'

/-- Numeric keys always compare without raising, so insertion succeeds. -/
theorem insertE_ok_of_num (d : String) (x : Key × Offer) :
    ∀ (l : List (Key × Offer)),
      (∀ p ∈ x :: l, ∃ q, p.1 = Key.num q) →
      ∃ m, insertE (cmpKeyed d) x l = Except.ok m
  | [], _ => ⟨[x], rfl⟩
  | y :: ys, h => by
    obtain ⟨qx, hqx⟩ := h x (List.mem_cons_self x (y :: ys))
    obtain ⟨qy, hqy⟩ := h y (by simp)
    have hcomp : ∃ b, cmpKeyed d y x = Except.ok b := by
      by_cases hd : d = "desc" <;> simp [cmpKeyed, hd, hqx, hqy, ltKey]
    obtain ⟨b, hb⟩ := hcomp
    cases b with
    | false => exact ⟨x :: y :: ys, by simp [insertE, hb]⟩
    | true =>
      obtain ⟨m', hm'⟩ := insertE_ok_of_num d x ys (by
        intro p hp
        rcases List.mem_cons.mp hp with rfl | hp'
        · exact ⟨qx, hqx⟩
        · exact h p (by simp [hp']))
      exact ⟨y :: m', by simp [insertE, hb, hm']⟩

/-- Sorting succeeds outright when every key is numeric. -/
theorem sortE_ok_of_num (d : String) :
    ∀ (l : List (Key × Offer)),
      (∀ p ∈ l, ∃ q, p.1 = Key.num q) →
      ∃ m, sortE (cmpKeyed d) l = Except.ok m
  | [], _ => ⟨[], rfl⟩
  | x :: xs, h => by
    obtain ⟨s, hs⟩ := sortE_ok_of_num d xs (fun p hp => h p (List.mem_cons_of_mem x hp))
    obtain ⟨m, hm⟩ := insertE_ok_of_num d x s (by
      intro p hp
      rcases List.mem_cons.mp hp with rfl | hp'
      · exact h _ (List.mem_cons_self _ _)
      · exact h p (List.mem_cons_of_mem _
          ((sortE_perm (cmpKeyed d) xs s hs).subset hp')))
    exact ⟨m, by simp [sortE, hs, hm]⟩

/-- The full sorter never raises on `price` or `price_per_sqm` when every
record's `price`, `price_per_sqm` and `area` attributes are numbers or
null/missing. -/
theorem sortOffers_ok_of_numeric (offers : List Offer) (d : String)
    (h : ∀ o ∈ offers, isNumOrNull (getValue o "price") = true ∧
      isNumOrNull (getValue o "price_per_sqm") = true ∧
      isNumOrNull (getValue o "area") = true) :
    (∃ l, sortOffers offers (some "price") d = Except.ok l) ∧
    (∃ l, sortOffers offers (some "price_per_sqm") d = Except.ok l) := by
  by_cases h0 : offers = []
  · subst h0
    exact ⟨⟨[], by simp [sortOffers]⟩, ⟨[], by simp [sortOffers]⟩⟩
  · constructor
    · obtain ⟨keyed, hbk, hnum⟩ := buildKeys_ok SortField.price offers
        (fun o ho => buildSortKey_price_ok (h o ho).1)
      obtain ⟨m, hm⟩ := sortE_ok_of_num d keyed hnum
      exact ⟨m.map Prod.snd, by
        simp [sortOffers, h0, parseSortField, hbk, hm]⟩
    · obtain ⟨keyed, hbk, hnum⟩ := buildKeys_ok SortField.pricePerSqm offers
        (fun o ho => buildSortKey_pps_ok (h o ho).2.1 (h o ho).1 (h o ho).2.2)
      obtain ⟨m, hm⟩ := sortE_ok_of_num d keyed hnum
      exact ⟨m.map Prod.snd, by
        simp [sortOffers, h0, parseSortField, hbk, hm]⟩

/-! ### Congruence: the sorter only looks at records through their keys -/

/-- Relate two fallible results: both fail, or both succeed with related
values. -/
def exceptRel {α : Type} (R : α → α → Prop) :
    Except String α → Except String α → Prop
  | Except.ok a, Except.ok b => R a b
  | Except.error _, Except.error _ => True
  | _, _ => False

/-- Insertion is congruent under any relation the comparison cannot see
through. -/
theorem insertE_congr {α : Type} (lt : α → α → Except String Bool)
    (S : α → α → Prop)
    (hS : ∀ a a' b b', S a a' → S b b' → lt a b = lt a' b') :
    ∀ {x x' : α}, S x x' → ∀ {l l' : List α}, List.Forall₂ S l l' →
      exceptRel (List.Forall₂ S) (insertE lt x l) (insertE lt x' l') := by
  intro x x' hx l l' hl
  induction hl with
  | nil =>
    simp [insertE, exceptRel]
    exact hx
  | @cons y y' ys ys' hy hrest ih =>
    have hlt : lt y x = lt y' x' := hS y y' x x' hy hx
    cases h1 : lt y x with
    | error e =>
      rw [hlt] at h1
      simp [insertE, ← hlt, h1]
      rw [hlt, h1]
      simp [exceptRel]
    | ok b =>
      cases b with
      | false =>
        have h1' : lt y' x' = Except.ok false := hlt ▸ h1
        simp [insertE, h1, h1', exceptRel]
        exact ⟨hx, hy, hrest⟩
      | true =>
        have h1' : lt y' x' = Except.ok true := hlt ▸ h1
        cases h2 : insertE lt x ys with
        | error e =>
          cases h3 : insertE lt x' ys' with
          | error e' => simp [insertE, h1, h1', h2, h3, exceptRel]
          | ok m' =>
            rw [h2, h3] at ih
            simp [exceptRel] at ih
        | ok m =>
          cases h3 : insertE lt x' ys' with
          | error e' =>
            rw [h2, h3] at ih
            simp [exceptRel] at ih
          | ok m' =>
            rw [h2, h3] at ih
            simp [exceptRel] at ih
            simp [insertE, h1, h1', h2, h3, exceptRel]
            exact ⟨hy, ih⟩

/-- The fallible sort is congruent under any relation the comparison cannot
see through. -/
theorem sortE_congr {α : Type} (lt : α → α → Except String Bool)
    (S : α → α → Prop)
    (hS : ∀ a a' b b', S a a' → S b b' → lt a b = lt a' b') :
    ∀ {l l' : List α}, List.Forall₂ S l l' →
      exceptRel (List.Forall₂ S) (sortE lt l) (sortE lt l') := by
  intro l l' hl
  induction hl with
  | nil => simp [sortE, exceptRel]
  | @cons x x' xs xs' hx hrest ih =>
    cases h2 : sortE lt xs with
    | error e =>
      cases h3 : sortE lt xs' with
      | error e' => simp [sortE, h2, h3, exceptRel]
      | ok s' =>
        rw [h2, h3] at ih
        simp [exceptRel] at ih
    | ok s =>
      cases h3 : sortE lt xs' with
      | error e' =>
        rw [h2, h3] at ih
        simp [exceptRel] at ih
      | ok s' =>
        rw [h2, h3] at ih
        simp only [exceptRel] at ih
        simpa [sortE, h2, h3] using insertE_congr lt S hS hx ih

/-- Decoration is congruent under any relation preserving derived keys. -/
theorem buildKeys_congr (f : SortField) (R : Offer → Offer → Prop)
    (HR : ∀ a b, R a b → buildSortKey a f = buildSortKey b f) :
    ∀ {l l' : List Offer}, List.Forall₂ R l l' →
      exceptRel (List.Forall₂ (fun p q => p.1 = q.1 ∧ R p.2 q.2))
        (buildKeys f l) (buildKeys f l') := by
  intro l l' hl
  induction hl with
  | nil => simp [buildKeys, exceptRel]
  | @cons o o' os os' ho hrest ih =>
    have hbs : buildSortKey o f = buildSortKey o' f := HR o o' ho
    cases h1 : buildSortKey o f with
    | error e =>
      have h1' : buildSortKey o' f = Except.error e := hbs ▸ h1
      simp [buildKeys, h1, h1', exceptRel]
    | ok k =>
      have h1' : buildSortKey o' f = Except.ok k := hbs ▸ h1
      cases h2 : buildKeys f os with
      | error e =>
        cases h3 : buildKeys f os' with
        | error e' => simp [buildKeys, h1, h1', h2, h3, exceptRel]
        | ok rest' =>
          rw [h2, h3] at ih
          simp [exceptRel] at ih
      | ok rest =>
        cases h3 : buildKeys f os' with
        | error e' =>
          rw [h2, h3] at ih
          simp [exceptRel] at ih
        | ok rest' =>
          rw [h2, h3] at ih
          simp only [exceptRel] at ih
          simp [buildKeys, h1, h1', h2, h3, exceptRel]
          exact ⟨ho, ih⟩

/-- Projecting related decorated lists gives related record lists. -/
theorem forall₂_map_snd {R : Offer → Offer → Prop}
    {m m' : List (Key × Offer)}
    (h : List.Forall₂ (fun p q => p.1 = q.1 ∧ R p.2 q.2) m m') :
    List.Forall₂ R (m.map Prod.snd) (m'.map Prod.snd) := by
  induction h with
  | nil => exact List.Forall₂.nil
  | cons hy hrest ih => exact List.Forall₂.cons hy.2 ih

/-- The sorter is congruent under any relation preserving all derived keys:
related inputs yield both an error or pointwise-related outputs. -/
theorem sortOffers_congr (R : Offer → Offer → Prop)
    (HR : ∀ a b, R a b → ∀ f, buildSortKey a f = buildSortKey b f)
    {l l' : List Offer} (h : List.Forall₂ R l l') (sb : Option String)
    (d : String) :
    exceptRel (List.Forall₂ R) (sortOffers l sb d) (sortOffers l' sb d) := by
  by_cases h0 : l = []
  · subst h0
    have h0' : l' = [] := by cases h; rfl
    subst h0'
    simp [sortOffers, exceptRel]
  · have h0' : l' ≠ [] := by
      intro hc
      subst hc
      cases h
      exact h0 rfl
    cases sb with
    | none => simpa [sortOffers, h0, h0', exceptRel] using h
    | some s =>
      by_cases hs : s = ""
      · simpa [sortOffers, h0, h0', hs, exceptRel] using h
      · cases hp : parseSortField s with
        | none => simpa [sortOffers, h0, h0', hs, hp, exceptRel] using h
        | some f =>
          have hcmp : ∀ (a a' b b' : Key × Offer),
              (fun p q => p.1 = q.1 ∧ R p.2 q.2) a a' →
              (fun p q => p.1 = q.1 ∧ R p.2 q.2) b b' →
              cmpKeyed d a b = cmpKeyed d a' b' := by
            intro a a' b b' ha hb
            simp [cmpKeyed, ha.1, hb.1]
          have hbk := buildKeys_congr f R (fun a b hr => HR a b hr f) h
          cases h2 : buildKeys f l with
          | error e =>
            cases h3 : buildKeys f l' with
            | error e' => simp [sortOffers, h0, h0', hs, hp, h2, h3, exceptRel]
            | ok keyed' =>
              rw [h2, h3] at hbk
              simp [exceptRel] at hbk
          | ok keyed =>
            cases h3 : buildKeys f l' with
            | error e' =>
              rw [h2, h3] at hbk
              simp [exceptRel] at hbk
            | ok keyed' =>
              rw [h2, h3] at hbk
              simp only [exceptRel] at hbk
              have hsort := sortE_congr (cmpKeyed d) _ hcmp hbk
              cases h4 : sortE (cmpKeyed d) keyed with
              | error e =>
                cases h5 : sortE (cmpKeyed d) keyed' with
                | error e' =>
                  simp [sortOffers, h0, h0', hs, hp, h2, h3, h4, h5, exceptRel]
                | ok m' =>
                  rw [h4, h5] at hsort
                  simp [exceptRel] at hsort
              | ok m =>
                cases h5 : sortE (cmpKeyed d) keyed' with
                | error e' =>
                  rw [h4, h5] at hsort
                  simp [exceptRel] at hsort
                | ok m' =>
                  rw [h4, h5] at hsort
                  simp only [exceptRel] at hsort
                  simpa [sortOffers, h0, h0', hs, hp, h2, h3, h4, h5, exceptRel]
                    using forall₂_map_snd hsort

/-! ### Null-valued and missing attributes are indistinguishable -/

/-- Appending an explicit `None` binding never changes any lookup: an earlier
binding shadows it, and an absent key already reads as `None`. -/
theorem getValue_append_null :
    ∀ (entries : List (String × Value)) (k k' : String),
      getValue (entries ++ [(k, Value.null)]) k' = getValue entries k'
  | [], k, k' => by
    by_cases h : k = k' <;> simp [getValue, h]
  | (k0, v0) :: rest, k, k' => by
    by_cases h : k0 = k' <;> simp [getValue, h, getValue_append_null rest k k']

/-- Records that agree on every lookup derive the same key for every field. -/
theorem buildSortKey_congr_of_get {a b : Offer}
    (hget : ∀ k', getValue a k' = getValue b k') (f : SortField) :
    buildSortKey a f = buildSortKey b f := by
  cases f <;> simp [buildSortKey, calculatePricePerSqm, hget]

/-! ### Direction handling -/

/-- Any direction string other than exactly `"desc"` compares like `"asc"`. -/
theorem cmpKeyed_eq_asc {d : String} (hd : d ≠ "desc") :
    cmpKeyed d = cmpKeyed "asc" := by
  funext a b
  simp [cmpKeyed, hd]

/-- The sorter treats any direction other than exactly `"desc"` as
ascending. -/
theorem sortOffers_dir (offers : List Offer) (sb : Option String) {d : String}
    (hd : d ≠ "desc") : sortOffers offers sb d = sortOffers offers sb "asc" := by
  unfold sortOffers
  rw [cmpKeyed_eq_asc hd]

/-! ### The claims -/

/-- Counterexample to C1 as stated: the derived `price_per_sqm` key is not the
exact quotient `price / area`. For `price=1, area=3` Python computes
`Decimal(1) / Decimal(3) = 0.3333333333333333333333333333` (28 significant
digits, the default context precision), which differs from the exact rational
`1 / 3`. -/
theorem claim_c1_counterexample :
    buildSortKey [("price", Value.num 1), ("area", Value.num 3)]
        SortField.pricePerSqm
      = Except.ok (Key.num (3333333333333333333333333333 / 10 ^ 28)) ∧
    buildSortKey [("price", Value.num 1), ("area", Value.num 3)]
        SortField.pricePerSqm
      ≠ Except.ok (Key.num (1 / 3)) := by
  have hc : divCoeffExp 1 3 = (3333333333333333333333333333, -28) := by decide
  have ht : Int.toNat 28 = 28 := rfl
  have hd : divDecimal 1 3 = 3333333333333333333333333333 / 10 ^ 28 := by
    norm_num [divDecimal, hc, pow10, ht]
  have hpps : getValue [("price", Value.num 1), ("area", Value.num 3)]
      "price_per_sqm" = Value.null := by decide
  have hp : getValue [("price", Value.num 1), ("area", Value.num 3)]
      "price" = Value.num 1 := by decide
  have ha : getValue [("price", Value.num 1), ("area", Value.num 3)]
      "area" = Value.num 3 := by decide
  have hkey : buildSortKey [("price", Value.num 1), ("area", Value.num 3)]
      SortField.pricePerSqm
      = Except.ok (Key.num (3333333333333333333333333333 / 10 ^ 28)) := by
    norm_num [buildSortKey, calculatePricePerSqm, hpps, hp, ha,
      normalizePriceValue, Except.map, hd]
    simp
  refine ⟨hkey, ?_⟩
  rw [hkey]
  intro hcontra
  simp only [Except.ok.injEq, Key.num.injEq] at hcontra
  norm_num at hcontra

/-- Claim C1 (amended): the `price_per_sqm` sort key of a record is the
numeric value of its `price_per_sqm` field when present (non-null); otherwise
the `Decimal` division `price / area` — the exact quotient rounded, when it
needs more than 28 significant digits, to 28 significant digits half-even, and
exact otherwise (so exactly `10000` for `price=500000, area=50`) — when both
are present and the area is nonzero; otherwise `0` — both when a field is
missing and when the area is `0`, with no division-by-zero failure. -/
theorem claim_c1_price_per_sqm_key (o : Offer) :
    (∀ q, getValue o "price_per_sqm" = Value.num q →
      buildSortKey o SortField.pricePerSqm = Except.ok (Key.num q)) ∧
    (getValue o "price_per_sqm" = Value.null →
      ∀ p a, getValue o "price" = Value.num p → getValue o "area" = Value.num a →
        a ≠ 0 →
        buildSortKey o SortField.pricePerSqm = Except.ok (Key.num (divDecimal p a))) ∧
    (getValue o "price_per_sqm" = Value.null →
      (getValue o "price" = Value.null ∨ getValue o "area" = Value.null) →
      buildSortKey o SortField.pricePerSqm = Except.ok (Key.num 0)) ∧
    (getValue o "price_per_sqm" = Value.null →
      ∀ p, getValue o "price" = Value.num p → getValue o "area" = Value.num 0 →
        buildSortKey o SortField.pricePerSqm = Except.ok (Key.num 0)) := by
  refine ⟨?_, ?_, ?_, ?_⟩
  · intro q hq
    simp [buildSortKey, calculatePricePerSqm, hq, normalizePriceValue, Except.map]
  · intro hd p a hp ha haz
    simp [buildSortKey, calculatePricePerSqm, hd, hp, ha, haz, normalizePriceValue,
      Except.map]
  · intro hd hor
    rcases hor with hn | hn <;>
      simp [buildSortKey, calculatePricePerSqm, hd, hn, Except.map]
  · intro hd p hp ha
    simp [buildSortKey, calculatePricePerSqm, hd, hp, ha, normalizePriceValue,
      Except.map]

/-- Witness for C1: the derived key is exactly `10000` for
`price=500000, area=50` with no stored `price_per_sqm`; it is `0` for a
zero area; a stored value is used directly; empty records give `0`. -/
theorem claim_c1_witness :
    buildSortKey [("price", Value.num 500000), ("area", Value.num 50)]
      SortField.pricePerSqm = Except.ok (Key.num 10000) ∧
    buildSortKey [("price", Value.num 500000), ("area", Value.num 0)]
      SortField.pricePerSqm = Except.ok (Key.num 0) ∧
    buildSortKey [("price_per_sqm", Value.num 7)] SortField.pricePerSqm
      = Except.ok (Key.num 7) ∧
    buildSortKey [] SortField.pricePerSqm = Except.ok (Key.num 0) := by
  refine ⟨?_, ?_, ?_, ?_⟩
  · have hc : divCoeffExp 500000 50 = (1000000000000000000000000000, -23) := by
      decide
    have ht : Int.toNat 23 = 23 := rfl
    have e : divDecimal 500000 50 = 10000 := by
      norm_num [divDecimal, hc, pow10, ht]
    have h := (claim_c1_price_per_sqm_key
      [("price", Value.num 500000), ("area", Value.num 50)]).2.1
      (by decide) 500000 50 (by decide) (by decide) (by norm_num)
    rw [e] at h
    exact h
  · exact (claim_c1_price_per_sqm_key
      [("price", Value.num 500000), ("area", Value.num 0)]).2.2.2
      (by decide) 500000 (by decide) (by decide)
  · exact (claim_c1_price_per_sqm_key [("price_per_sqm", Value.num 7)]).1
      7 (by decide)
  · exact (claim_c1_price_per_sqm_key []).2.2.1 (by decide) (Or.inl (by decide))

/-- Counterexample to C2 as stated: sorting two records by `date_added` where
one has a date and the other does not raises `TypeError` (Python compares the
raw `None` key with a date), so `sort_offers` is not exception-free. -/
theorem claim_c2_counterexample :
    sortOffers [[("date_added", Value.date 5)], []] (some "date_added") "asc"
      = Except.error "TypeError" := by decide

/-- Claim C2 (amended): `sort_offers` raises no exception when sorting by
`price` or `price_per_sqm` over records whose `price`, `price_per_sqm` and
`area` values are each numeric or null/missing; sorting by `date_added` or
`area` can raise `TypeError` when null/missing values are mixed with present
ones, because those raw values are passed to the comparison. -/
theorem claim_c2_amended (offers : List Offer) (d : String)
    (h : ∀ o ∈ offers, isNumOrNull (getValue o "price") = true ∧
      isNumOrNull (getValue o "price_per_sqm") = true ∧
      isNumOrNull (getValue o "area") = true) :
    (∃ l, sortOffers offers (some "price") d = Except.ok l) ∧
    (∃ l, sortOffers offers (some "price_per_sqm") d = Except.ok l) :=
  sortOffers_ok_of_numeric offers d h

/-- Witness for C2 (amended): a numeric-and-missing mix sorts without error
by both price fields. -/
theorem claim_c2_witness :
    (∃ l, sortOffers [[("price", Value.num 3)], []] (some "price") "desc"
      = Except.ok l) ∧
    (∃ l, sortOffers [[("price", Value.num 3)], []] (some "price_per_sqm") "desc"
      = Except.ok l) :=
  claim_c2_amended [[("price", Value.num 3)], []] "desc" (by decide)

/-- Claim C3: a null or unsupported `sort_by` returns the input in its
original order, for every direction, raising no error. -/
theorem claim_c3_unsupported_unchanged (offers : List Offer) (d : String)
    (sb : Option String)
    (h : ∀ s, sb = some s →
      s ∉ (["price", "price_per_sqm", "date_added", "area"] : List String)) :
    sortOffers offers sb d = Except.ok offers :=
  sortOffers_unsupported offers d sb h

/-- Witness for C3: an unknown field name leaves the records untouched. -/
theorem claim_c3_witness :
    sortOffers [[("price", Value.num 1)]] (some "rating") "desc"
      = Except.ok [[("price", Value.num 1)]] :=
  claim_c3_unsupported_unchanged [[("price", Value.num 1)]] "desc"
    (some "rating") (by intro s hs; cases hs; decide)

/-- Claim C4: every sequence returned by `sort_offers` is a permutation of the
input (same length, same multiset of records), and the empty input yields the
empty output. -/
theorem claim_c4_permutation :
    (∀ (offers : List Offer) (sb : Option String) (d : String) (l : List Offer),
      sortOffers offers sb d = Except.ok l → l.Perm offers) ∧
    (∀ (sb : Option String) (d : String), sortOffers [] sb d = Except.ok []) := by
  constructor
  · exact sortOffers_perm
  · intro sb d
    simp [sortOffers]

/-- Witness for C4: a concrete two-record sort returns a permutation. -/
theorem claim_c4_witness :
    ([[("price", Value.num 1)], [("price", Value.num 2)]] : List Offer).Perm
      [[("price", Value.num 2)], [("price", Value.num 1)]] :=
  claim_c4_permutation.1 [[("price", Value.num 2)], [("price", Value.num 1)]]
    (some "price") "asc" [[("price", Value.num 1)], [("price", Value.num 2)]]
    (by decide)

/-- Claim C5: for every supported sort field and both directions, the sort is
stable: records deriving equal keys keep their original relative order (the
subsequence of records with any given key value is unchanged). -/
theorem claim_c5_stability (offers : List Offer) (f : SortField) (d : String)
    (l : List Offer) (h : sortOffers offers (some (fieldName f)) d = Except.ok l)
    (k : Key) :
    l.filter (fun o => decide (buildSortKey o f = Except.ok k))
      = offers.filter (fun o => decide (buildSortKey o f = Except.ok k)) :=
  sortOffers_stable offers f d l h k

/-- Witness for C5: two records tied on price stay in input order below a
cheaper one. -/
theorem claim_c5_witness :
    ([[("id", Value.num 2), ("price", Value.num 1)],
      [("id", Value.num 1), ("price", Value.num 5)],
      [("id", Value.num 3), ("price", Value.num 5)]] : List Offer).filter
        (fun o => decide (buildSortKey o SortField.price
          = Except.ok (Key.num 5)))
      = ([[("id", Value.num 1), ("price", Value.num 5)],
          [("id", Value.num 2), ("price", Value.num 1)],
          [("id", Value.num 3), ("price", Value.num 5)]] : List Offer).filter
        (fun o => decide (buildSortKey o SortField.price
          = Except.ok (Key.num 5))) :=
  claim_c5_stability
    [[("id", Value.num 1), ("price", Value.num 5)],
     [("id", Value.num 2), ("price", Value.num 1)],
     [("id", Value.num 3), ("price", Value.num 5)]]
    SortField.price "asc"
    [[("id", Value.num 2), ("price", Value.num 1)],
     [("id", Value.num 1), ("price", Value.num 5)],
     [("id", Value.num 3), ("price", Value.num 5)]]
    (by decide) (Key.num 5)

/-- Claim C6: sorting by `price` ascending yields non-decreasing price keys
and descending yields non-increasing ones, where the price key is the
normalized numeric value of the `price` field (missing/null as `0`). -/
theorem claim_c6_price_order (offers : List Offer) :
    (∀ l, sortOffers offers (some "price") "asc" = Except.ok l →
      l.Pairwise (fun a b => ∀ qa qb,
        normalizePriceValue (getValue a "price") = Except.ok qa →
        normalizePriceValue (getValue b "price") = Except.ok qb → qa ≤ qb)) ∧
    (∀ l, sortOffers offers (some "price") "desc" = Except.ok l →
      l.Pairwise (fun a b => ∀ qa qb,
        normalizePriceValue (getValue a "price") = Except.ok qa →
        normalizePriceValue (getValue b "price") = Except.ok qb → qb ≤ qa)) :=
  ⟨fun l h => sortOffers_price_asc offers l h,
   fun l h => sortOffers_price_desc offers l h⟩

/-- Witness for C6: a three-record input (including a missing price treated as
`0`) comes out ordered both ways. -/
theorem claim_c6_witness :
    (([[], [("price", Value.num 1)], [("price", Value.num 2)]] : List Offer).Pairwise
      (fun a b => ∀ qa qb,
        normalizePriceValue (getValue a "price") = Except.ok qa →
        normalizePriceValue (getValue b "price") = Except.ok qb → qa ≤ qb)) ∧
    (([[("price", Value.num 2)], [("price", Value.num 1)], []] : List Offer).Pairwise
      (fun a b => ∀ qa qb,
        normalizePriceValue (getValue a "price") = Except.ok qa →
        normalizePriceValue (getValue b "price") = Except.ok qb → qb ≤ qa)) :=
  ⟨(claim_c6_price_order
      [[("price", Value.num 2)], [], [("price", Value.num 1)]]).1
      [[], [("price", Value.num 1)], [("price", Value.num 2)]] (by decide),
   (claim_c6_price_order
      [[("price", Value.num 2)], [], [("price", Value.num 1)]]).2
      [[("price", Value.num 2)], [("price", Value.num 1)], []] (by decide)⟩

/-- Claim C8: `apply_ordering` leaves the statement unchanged whenever
`sort_by` is null or outside its whitelist, and that whitelist contains
exactly the single field `price`. -/
theorem claim_c8_ordering_whitelist :
    (∀ (stmt : Stmt) (order : Option String) (sb : Option String),
      (∀ s, sb = some s → s ≠ "price") → applyOrdering stmt sb order = stmt) ∧
    sortableFields.map Prod.fst = ["price"] := by
  constructor
  · intro stmt order sb h
    cases sb with
    | none => rfl
    | some s =>
      have hs := h s rfl
      by_cases he : s = ""
      · simp [applyOrdering, he]
      · have hb : (s == "price") = false := beq_eq_false_iff_ne.mpr hs
        have hl : sortableFields.lookup s = Option.none := by
          simp [sortableFields, List.lookup, hb]
        simp [applyOrdering, he, hl]
  · rfl

/-- Witness for C8: a field the in-memory sorter supports (`area`) is still
rejected at the HTTP boundary. -/
theorem claim_c8_witness :
    applyOrdering ⟨[]⟩ (some "area") (some "asc") = ⟨[]⟩ :=
  claim_c8_ordering_whitelist.1 ⟨[]⟩ (some "asc") (some "area")
    (by intro s hs; cases hs; decide)

/-- Claim C9: the order is reversed only when `direction` is exactly the
string `"desc"`; every other direction value behaves exactly like `"asc"`,
with no error raised. -/
theorem claim_c9_direction :
    (∀ (offers : List Offer) (sb : Option String) (d : String), d ≠ "desc" →
      sortOffers offers sb d = sortOffers offers sb "asc") ∧
    sortOffers [[("price", Value.num 1)], [("price", Value.num 2)]]
        (some "price") "desc"
      ≠ sortOffers [[("price", Value.num 1)], [("price", Value.num 2)]]
        (some "price") "asc" := by
  constructor
  · intro offers sb d hd
    exact sortOffers_dir offers sb hd
  · decide

/-- Witness for C9: the uppercase string `"DESC"` sorts ascending. -/
theorem claim_c9_witness :
    sortOffers [[("price", Value.num 1)], [("price", Value.num 2)]]
        (some "price") "DESC"
      = sortOffers [[("price", Value.num 1)], [("price", Value.num 2)]]
        (some "price") "asc" :=
  claim_c9_direction.1 [[("price", Value.num 1)], [("price", Value.num 2)]]
    (some "price") "DESC" (by decide)

/-- Claim C10: a record carrying an attribute explicitly set to null is sorted
exactly as the same record with that key absent: inputs that differ only by
such a record produce outputs that correspond position by position (same
error, or the same arrangement up to that replacement), for every sort field
and direction. -/
theorem claim_c10_null_missing (entries : List (String × Value)) (k : String)
    (l1 l2 : List Offer) (sb : Option String) (d : String)
    (h : List.Forall₂
      (fun a b => a = b ∨ (a = entries ++ [(k, Value.null)] ∧ b = entries)) l1 l2) :
    exceptRel (List.Forall₂
      (fun a b => a = b ∨ (a = entries ++ [(k, Value.null)] ∧ b = entries)))
      (sortOffers l1 sb d) (sortOffers l2 sb d) := by
  apply sortOffers_congr _ _ h
  intro a b hr f
  rcases hr with rfl | ⟨ha, hb⟩
  · rfl
  · rw [ha, hb]
    exact buildSortKey_congr_of_get (fun k' => getValue_append_null entries k k') f

/-- Witness for C10: explicit `area = None` versus absent `area` sort
identically. -/
theorem claim_c10_witness :
    exceptRel (List.Forall₂ (fun a b => a = b ∨
      (a = [("price", Value.num 3)] ++ [("area", Value.null)] ∧
        b = [("price", Value.num 3)])))
      (sortOffers [[("price", Value.num 3), ("area", Value.null)]]
        (some "area") "asc")
      (sortOffers [[("price", Value.num 3)]] (some "area") "asc") :=
  claim_c10_null_missing [("price", Value.num 3)] "area"
    [[("price", Value.num 3), ("area", Value.null)]] [[("price", Value.num 3)]]
    (some "area") "asc"
    (List.Forall₂.cons (Or.inr ⟨rfl, rfl⟩) List.Forall₂.nil)

end RealEstate
